import Mathlib

/-!
Verification of the calvin-photo-sync repository.

This file shallowly embeds the parts of the program that the checked
claims are about:

* `LocalTripDetector.detect_location_change` and
  `LocalTripDetector.group_photos_by_enhanced_trips`
  (src/calvin_photo_sync_optimized.py, lines 488-567),
* `FastScanner.copy_all_photos` (lines 182-278),
* `OptimizedCalvinPhotoSync.create_manifest` / `verify_against_manifest`
  (lines 772-857),
* the `run_optimized_sync` / `main` exit-status control flow
  (lines 943-1094, 1140-1145),
* `SmartPhotoSync.scan_calvin_files` / `find_missing_files` /
  the staging copy of `smart_sync` (src/calvin_photo_sync_smart.py).

Python `datetime` values are modelled as integer second counts
(`timedelta(hours=h)` = `h * 3600` s, `timedelta(days=d)` = `d * 86400` s;
the uniform scale is irrelevant to every claim).  Python strings are
modelled as `String`/`List Char`; the Python `str.upper`/`str.lower`
behaviour is modelled for the ASCII range.  The haversine distance
`calculate_distance_km` computes with floating-point trigonometry; it is
kept as an explicit function parameter `dist` of the segmenter, and every
segmentation theorem is proved for an arbitrary such function.
-/

namespace CalvinSync

/-! ## Trip detector (calvin_photo_sync_optimized.py, LocalTripDetector) -/

/-- GPS dict `{'latitude': lat, 'longitude': lon}` built by
`PhotoMetadata.get_gps_data`.  Coordinates are modelled as rationals. -/
structure GPSCoord where
  latitude : ℚ
  longitude : ℚ
deriving DecidableEq, Repr

/-- One element of `photos_metadata` as built in
`analyze_and_organize_photos` (lines 448-452): a dict
`{'path': photo, 'datetime': dt, 'gps': gps}`. -/
structure PhotoMeta where
  path : String
  dt : ℤ
  gps : Option GPSCoord
deriving DecidableEq, Repr

/-- The `gps_clustering` sub-config (config key `trip_detection.gps_clustering`).
The `location_weight` entry is never read by the code and is omitted. -/
structure GpsClusteringConfig where
  enabled : Bool
  cluster_radius_km : ℚ
  min_location_photos : ℕ
deriving DecidableEq, Repr

/-- The fields of `LocalTripDetector` set in its `__init__` (lines 408-416). -/
structure TripConfig where
  short_gap_hours : ℤ
  long_gap_days : ℤ
  min_photos_per_trip : ℕ
  gps_clustering : GpsClusteringConfig
deriving DecidableEq, Repr

/-- Embeds `LocalTripDetector.detect_location_change` (lines 548-567).
`dist` stands for `self.calculate_distance_km`. -/
def detect_location_change (dist : GPSCoord → GPSCoord → ℚ) (cfg : TripConfig)
    (current_trip_photos : List PhotoMeta) (new_photo : PhotoMeta) : Bool :=
  if cfg.gps_clustering.enabled = false then false
  else
    match new_photo.gps with
    | none => false
    | some g =>
      let trip_gps_coords := current_trip_photos.filterMap (·.gps)
      if trip_gps_coords.length < cfg.gps_clustering.min_location_photos then
        false
      else
        let avg_lat := (trip_gps_coords.map (·.latitude)).sum / (trip_gps_coords.length : ℚ)
        let avg_lon := (trip_gps_coords.map (·.longitude)).sum / (trip_gps_coords.length : ℚ)
        decide (cfg.gps_clustering.cluster_radius_km < dist ⟨avg_lat, avg_lon⟩ g)

/-- The `should_start_new_trip` decision computed in the body of the loop of
`group_photos_by_enhanced_trips` (lines 500-524): Rule 1 (long gap), then
Rule 2 (short gap plus GPS consultation, or plain split when clustering is
disabled). -/
def should_start_new_trip (dist : GPSCoord → GPSCoord → ℚ) (cfg : TripConfig)
    (current_trip : List PhotoMeta) (prev_photo current_photo : PhotoMeta) : Bool :=
  let time_gap := current_photo.dt - prev_photo.dt
  if cfg.long_gap_days * 86400 < time_gap then true
  else if cfg.short_gap_hours * 3600 < time_gap then
    if cfg.gps_clustering.enabled then
      detect_location_change dist cfg current_trip current_photo
    else true
  else false

/-- The finalization guard of lines 528-534 and 540-544: the accumulated
trip is emitted only when it has at least `min_photos_per_trip` records. -/
def finalize_trip (cfg : TripConfig) (current_trip : List PhotoMeta) :
    List (List PhotoMeta) :=
  if cfg.min_photos_per_trip ≤ current_trip.length then [current_trip] else []

/-- The `for i in range(1, len(photos_metadata))` loop of
`group_photos_by_enhanced_trips` (lines 496-544), with the loop state
(`prev_photo`, `current_trip`, remaining records) made explicit. -/
def groupLoop (dist : GPSCoord → GPSCoord → ℚ) (cfg : TripConfig) :
    PhotoMeta → List PhotoMeta → List PhotoMeta → List (List PhotoMeta)
  | _, current_trip, [] => finalize_trip cfg current_trip
  | prev_photo, current_trip, current_photo :: rest =>
    if should_start_new_trip dist cfg current_trip prev_photo current_photo then
      finalize_trip cfg current_trip ++ groupLoop dist cfg current_photo [current_photo] rest
    else
      groupLoop dist cfg current_photo (current_trip ++ [current_photo]) rest

/-- Embeds `LocalTripDetector.group_photos_by_enhanced_trips` (lines 488-546),
applied to the time-sorted metadata list.  Each output trip is its
`photos` list (the display-only `reason` strings are not modelled). -/
def group_photos_by_enhanced_trips (dist : GPSCoord → GPSCoord → ℚ)
    (cfg : TripConfig) : List PhotoMeta → List (List PhotoMeta)
  | [] => []
  | first :: rest => groupLoop dist cfg first [first] rest

/-- The input to the segmenter is sorted ascending by capture time
(line 457, `photos_metadata.sort(key=lambda x: x['datetime'])`). -/
def sortedByDt : List PhotoMeta → Bool
  | [] => true
  | [_] => true
  | a :: b :: t => a.dt ≤ b.dt && sortedByDt (b :: t)

/-! ## Scanner/stager (calvin_photo_sync_optimized.py, FastScanner.copy_all_photos) -/

/-- Python `str.lower` restricted to the ASCII range (ASCII is the only
range exercised by the configuration's extension lists). -/
def pyCharLower (c : Char) : Char :=
  if 65 ≤ c.toNat ∧ c.toNat ≤ 90 then Char.ofNat (c.toNat + 32) else c

/-- Python `str.upper` restricted to the ASCII range. -/
def pyCharUpper (c : Char) : Char :=
  if 97 ≤ c.toNat ∧ c.toNat ≤ 122 then Char.ofNat (c.toNat - 32) else c

/-- Python `str.lower` on a `String`. -/
def pyLowerS (s : String) : String := ⟨s.data.map pyCharLower⟩

/-- A source file as `copy_all_photos` sees it: `photo_file.stem`,
`photo_file.suffix` and `photo_file.stat().st_size`
(`photo_file.name = stem ++ ext`). -/
structure SrcFile where
  stem : String
  ext : String
  size : ℕ
deriving DecidableEq, Repr

/-- The configuration read by `FastScanner`: `photo_extensions`
(already lowercased, line 104) and `scanning.batch_size`. -/
structure ScanConfig where
  photo_extensions : List String
  batch_size : ℕ
deriving DecidableEq, Repr

/-- The staging directory contents: destination file name paired with the
size of the file stored there (`dest_path.stat().st_size`).  Filesystem
directories have unique names, so the name list is kept duplicate-free in
the theorems that need it. -/
abbrev Staging := List (String × ℕ)

/-- Python `str.startswith` (`String.startsWith` is not used because its
implementation does not reduce inside the kernel). -/
def pyStartsWith (s pre : String) : Bool :=
  pre.data.isPrefixOf s.data

/-- The per-file filter of lines 199-206: photo extension (lowercased
suffix in the allow-list), and not an Apple sidecar/system file. -/
def eligiblePhotoFile (cfg : ScanConfig) (f : SrcFile) : Bool :=
  pyLowerS f.ext ∈ cfg.photo_extensions
    ∧ ¬ pyStartsWith (f.stem ++ f.ext) "._"
    ∧ ¬ pyStartsWith (f.stem ++ f.ext) ".DS_Store"

/-- The destination name tried for counter value `k`:
`photo_file.name` for `k = 0`, and `f"{base_name}_{counter}{extension}"`
(line 240) for `k ≥ 1`. -/
def candName (f : SrcFile) (k : ℕ) : String :=
  if k = 0 then f.stem ++ f.ext else f.stem ++ "_" ++ toString k ++ f.ext

/-- The `while dest_path.exists() and not dry_run:` loop of lines 230-241
(non-dry-run): the current candidate exists → equal size means duplicate,
skip (`break`, result `none`); unequal size means try the next counter;
a non-existing candidate is returned for the copy of the `else:` branch
(lines 242-250).  The loop has no bound in the source; here it runs on
fuel, and the wrapper passes `staged.length + 2` fuel, which is more than
the number of distinct candidate names that can be present in `staged`,
so the `0` case is never reached. -/
def findDestGo (staged : Staging) (f : SrcFile) : ℕ → ℕ → Option String
  | 0, _ => none
  | fuel + 1, k =>
    match staged.lookup (candName f k) with
    | none => some (candName f k)
    | some s => if s = f.size then none else findDestGo staged f fuel (k + 1)

/-- Destination-name search for one source file, starting at the plain
name `photo_file.name` with `counter = 1` next (lines 227-241). -/
def findDest (staged : Staging) (f : SrcFile) : Option String :=
  findDestGo staged f (staged.length + 2) 0

/-- Staging one source file: the dedup/copy decision of lines 221-250.
Returns the staging contents afterwards and whether a copy was performed
(`shutil.copy2` executed, `total_copied` incremented). -/
def stageFile (staged : Staging) (f : SrcFile) : Staging × Bool :=
  match findDest staged f with
  | some dest => (staged ++ [(dest, f.size)], true)
  | none => (staged, false)

/-- The check `if max_photos and total_copied >= max_photos:` (lines 255, 264) —
Python truthiness makes both `None` and `0` disable the limit. -/
def limit_reached (max_photos : Option ℕ) (total_copied : ℕ) : Bool :=
  match max_photos with
  | none => false
  | some m => if m = 0 then false else m ≤ total_copied

/-- Fuel-driven worker for `chunksOf`: each step emits one slice and
consumes at least one element, so `l.length` fuel always suffices. -/
def chunksOfGo (b : ℕ) : ℕ → List α → List (List α)
  | 0, _ => []
  | _, [] => []
  | fuel + 1, x :: xs => (x :: xs.take (b - 1)) :: chunksOfGo b fuel (xs.drop (b - 1))

/-- The `photo_files[i:i + batch_size]` chunking of lines 214-215 (for the
`batch_size ≥ 1` always produced by the configuration). -/
def chunksOf (b : ℕ) (l : List α) : List (List α) :=
  chunksOfGo b l.length l

/-- The `for photo_file in batch:` loop of lines 221-257 (non-dry-run):
each copy increments `total_copied`, and reaching the limit executes
`break` — which leaves only this innermost loop. -/
def copyBatch (max_photos : Option ℕ) :
    List SrcFile → Staging × ℕ → Staging × ℕ
  | [], st => st
  | f :: fs, (staged, total_copied) =>
    match stageFile staged f with
    | (staged', false) => copyBatch max_photos fs (staged', total_copied)
    | (staged', true) =>
      let total' := total_copied + 1
      if limit_reached max_photos total' then (staged', total')
      else copyBatch max_photos fs (staged', total')

/-- Processing one discovered photo directory (lines 191-266): filter to
eligible photo files, then loop over the batches — the batch loop is NOT
stopped by the `break` above. -/
def copyDir (cfg : ScanConfig) (max_photos : Option ℕ)
    (st : Staging × ℕ) (dirFiles : List SrcFile) : Staging × ℕ :=
  let photo_files := dirFiles.filter (eligiblePhotoFile cfg)
  (chunksOf cfg.batch_size photo_files).foldl
    (fun s batch => copyBatch max_photos batch s) st

/-- Embeds `FastScanner.copy_all_photos` (lines 182-278), non-dry-run, with the
directory walk results given as lists of files.  Returns the final staging
contents and the returned `total_copied`.  (Manifest writing, progress
printing and the per-directory `except` clause are not modelled.) -/
def copy_all_photos (cfg : ScanConfig) (photo_dirs : List (List SrcFile))
    (max_photos : Option ℕ) (staged0 : Staging) : Staging × ℕ :=
  photo_dirs.foldl (copyDir cfg max_photos) (staged0, 0)

/-! ## Manifest ledger (create_manifest, lines 772-809; verify_against_manifest,
lines 811-857).  File names and manifest lines are modelled as `List Char`. -/

/-- The whitespace stripped by Python `str.strip()`. -/
def pySpaceChar (c : Char) : Bool :=
  c = ' ' || c = '\t' || c = '\n' || c = '\r' || c.toNat = 11 || c.toNat = 12

/-- Python `str.strip()`. -/
def pyStripL (l : List Char) : List Char :=
  ((l.dropWhile pySpaceChar).reverse.dropWhile pySpaceChar).reverse

/-- The prefix of `l` before the first occurrence of `sep`
(the whole of `l` when `sep` does not occur): `l.split(sep)[0]`. -/
def splitFirstOn (sep : List Char) : List Char → List Char
  | [] => []
  | c :: t => if sep.isPrefixOf (c :: t) then [] else c :: splitFirstOn sep t

/-- The manifest field separator `' | '`. -/
def sepBar : List Char := [' ', '|', ' ']

/-- Lexicographic (code-point) order on names, as Python string `sorted`. -/
def lexLe : List Char → List Char → Bool
  | [], _ => true
  | _ :: _, [] => false
  | a :: as, b :: bs =>
    if a.toNat < b.toNat then true
    else if a.toNat = b.toNat then lexLe as bs
    else false

/-- Python `sorted` on a list of names. -/
def sortNames (l : List (List Char)) : List (List Char) :=
  List.insertionSort (fun a b => lexLe a b = true) l

/-- One file as `create_manifest` records it: its name, the stat size and
mtime, the extension, and whether `file_path.exists()` held (line 787). -/
structure ManFile where
  name : List Char
  size : ℕ
  mtime : List Char
  ext : List Char
  onDisk : Bool
deriving DecidableEq, Repr

/-- Sorting the recorded files (`for file_path in sorted(files)`, line 786). -/
def sortManFiles (files : List ManFile) : List ManFile :=
  List.insertionSort (fun f g => lexLe f.name g.name = true) files

/-- The entry line written for one file (lines 793 and 798). -/
def entryLine (f : ManFile) : List Char :=
  if f.onDisk then
    f.name ++ sepBar ++ (toString f.size).data ++ sepBar ++ f.mtime
      ++ sepBar ++ f.ext.map pyCharLower
  else
    f.name ++ sepBar ++ "MISSING".data ++ sepBar ++ "MISSING".data
      ++ sepBar ++ "MISSING".data

/-- Per-extension counters (`file_types = defaultdict(int)`). -/
def bumpCount (l : List (List Char × ℕ)) (k : List Char) : List (List Char × ℕ) :=
  if l.any (fun p => p.1 == k) then
    l.map (fun p => if p.1 == k then (p.1, p.2 + 1) else p)
  else l ++ [(k, 1)]

/-- The manifest header block (lines 776-781): five `#` comment lines,
the `#====` rule, and the blank line the trailing `"\n\n"` produces. -/
def manifestHeaderLines (nowIso desc : List Char) (n : ℕ) : List (List Char) :=
  [ '#' :: ' ' :: desc,
    "# Created: ".data ++ nowIso,
    "# Total files: ".data ++ (toString n).data,
    "#".data,
    "# Format: filename | size_bytes | modified_time | file_type".data,
    '#' :: List.replicate 70 '=',
    [] ]

/-- The manifest summary footer (lines 800-802): a blank line and three
`#` comment lines.  The numeric formatting (thousands separators, the MB
figure, the dict rendering) is display-only and rendered plainly. -/
def manifestFooterLines (total_size : ℕ) (file_types : List (List Char × ℕ)) :
    List (List Char) :=
  [ [],
    "# Summary:".data,
    "# Total size: ".data ++ (toString total_size).data ++ " bytes".data,
    "# File types: ".data ++ (toString file_types).data ]

/-- Embeds `OptimizedCalvinPhotoSync.create_manifest` (lines 772-809), as the list
of lines written to the manifest file.  `nowIso` abstracts
`datetime.now().isoformat()`.  Each list element models one physical line
of the written file; that identification is exact only when the embedded
strings (description, timestamp, and each file's name, mtime and
extension) contain no newline or carriage-return character — a raw
`'\n'` would be written out and split into two physical lines by the
reader.  The round-trip theorem therefore hypothesizes newline-freedom
of every embedded string. -/
def create_manifest (nowIso desc : List Char) (files : List ManFile) :
    List (List Char) :=
  let sorted := sortManFiles files
  let total_size := (sorted.filter (·.onDisk)).foldl (fun a f => a + f.size) 0
  let file_types := (sorted.filter (·.onDisk)).foldl
    (fun a f => bumpCount a (f.ext.map pyCharLower)) []
  manifestHeaderLines nowIso desc files.length
    ++ sorted.map entryLine
    ++ manifestFooterLines total_size file_types

/-- The test `line.startswith('#')`: the line's first character is `#`. -/
def startsWithHash (line : List Char) : Bool :=
  match line with
  | [] => false
  | c :: _ => c == '#'

/-- Comment/blank line skip of line 822:
`if line.startswith('#') or not line.strip(): continue`. -/
def skipLine (line : List Char) : Bool :=
  startsWithHash line || (pyStripL line).isEmpty

/-- Filename extraction of line 824: `line.split(' | ')[0].strip()`. -/
def parseEntryName (line : List Char) : List Char :=
  pyStripL (splitFirstOn sepBar line)

/-- The names read from a manifest (lines 819-825). -/
def manifestNames (lines : List (List Char)) : List (List Char) :=
  (lines.filter (fun l => ! skipLine l)).map parseEntryName

/-- Embeds `OptimizedCalvinPhotoSync.verify_against_manifest` (lines 811-857):
compares the name sets, returns the `True`/`False` verdict together with
the entries appended to `self.stats['errors']` (one
`"Missing file: <name>"` per missing name, in sorted order, lines
838-841; extra names are only printed, lines 843-846). -/
def verify_against_manifest (current_files : List (List Char))
    (lines : List (List Char)) : Bool × List (List Char) :=
  let manifest_files := (manifestNames lines).dedup
  let current_names := current_files.dedup
  let missing := manifest_files.filter (fun n => decide (n ∉ current_names))
  let extra := current_names.filter (fun n => decide (n ∉ manifest_files))
  let errs := (sortNames missing).map (fun n => "Missing file: ".data ++ n)
  (missing.isEmpty && extra.isEmpty, errs)

/-! ## Orchestrator exit status (run_optimized_sync, lines 943-1094; main,
lines 1140-1145) -/

/-- The run conditions and phase outcomes that determine
`run_optimized_sync`'s control flow.  `pipelineErrors` abstracts every
entry appended to `self.stats['errors']` during phases 2-4 and the final
verification; the two fatal checks and the empty-scan early return happen
before any append, so those paths leave the list empty. -/
structure RunEnv where
  sourceDeviceFound : Bool
  destinationExists : Bool
  resumeStaging : Bool
  photoDirsFound : Bool
  pipelineErrors : List String
deriving DecidableEq, Repr

/-- Embeds `OptimizedCalvinPhotoSync.run_optimized_sync` (non-dry-run), reduced
to its return value and final error list: `return False` with no error
recorded when no source device is found (lines 951-954) or the
destination root is missing (lines 957-960); `return True` when the scan
finds no photo directories (lines 983-986, only reached when not resuming
from staging); otherwise `return len(self.stats['errors']) == 0`
(line 1094). -/
def run_optimized_sync (env : RunEnv) : Bool × List String :=
  if env.sourceDeviceFound = false then (false, [])
  else if env.destinationExists = false then (false, [])
  else if env.resumeStaging = false ∧ env.photoDirsFound = false then (true, [])
  else (env.pipelineErrors.isEmpty, env.pipelineErrors)

/-- Embeds `main` (line 1145): `sys.exit(0 if success else 1)`. -/
def mainExitCode (env : RunEnv) : ℕ :=
  if (run_optimized_sync env).1 then 0 else 1

/-! ## Smart pre-check sync (calvin_photo_sync_smart.py) -/

/-- Python `str.upper()` on a name (ASCII range). -/
def pyStrUpperL (s : List Char) : List Char := s.map pyCharUpper

/-- Python `str.lower()` on a name (ASCII range). -/
def pyStrLowerL (s : List Char) : List Char := s.map pyCharLower

/-- Embeds `pathlib.Path.suffix`: the part of the name from its last dot, when
that dot is neither the first nor the last character, else empty. -/
def pySuffix (name : List Char) : List Char :=
  match name.reverse.findIdx? (fun c => c == '.') with
  | none => []
  | some j =>
    let i := name.length - 1 - j
    if 0 < i ∧ i < name.length - 1 then name.drop i else []

/-- The media-file filter of `scan_calvin_files` (lines 107-111). -/
def eligibleSmart (exts : List (List Char)) (name : List Char) : Bool :=
  pyStrLowerL (pySuffix name) ∈ exts
    ∧ ¬ "._".data.isPrefixOf name
    ∧ ¬ ".DS_Store".data.isPrefixOf name

/-- Python dict assignment `d[k] = v`: overwrite in place, else append. -/
def pyDictInsert (d : List (List Char × List Char)) (k v : List Char) :
    List (List Char × List Char) :=
  if d.any (fun p => p.1 == k) then
    d.map (fun p => if p.1 == k then (p.1, v) else p)
  else d ++ [(k, v)]

/-- Embeds `SmartPhotoSync.scan_calvin_files` (lines 95-115): the dict
`filename.upper() -> file_path`, here keyed by the uppercased name with
the original on-device file name as the value (standing for the full
path, whose final component it is). -/
def scan_calvin_files (exts : List (List Char))
    (deviceFiles : List (List Char)) : List (List Char × List Char) :=
  (deviceFiles.filter (eligibleSmart exts)).foldl
    (fun d n => pyDictInsert d (pyStrUpperL n) n) []

/-- Embeds `SmartPhotoSync.get_uploaded_files` (lines 59-74): the set of
uppercased names found under Uploaded Photos. -/
def get_uploaded_files (uploadedNames : List (List Char)) : List (List Char) :=
  uploadedNames.map pyStrUpperL

/-- Embeds `SmartPhotoSync.find_missing_files` (lines 117-128): keep the Calvin
dict entries whose (uppercased) key is in neither the uploaded set nor
the manifest set. -/
def find_missing_files (calvin : List (List Char × List Char))
    (uploaded manifest : List (List Char)) : List (List Char × List Char) :=
  calvin.filter (fun p => decide (p.1 ∉ uploaded ++ manifest))

/-- The staging copies performed by `smart_sync` step 5 (lines 190-199):
for each missing entry, the destination is `staging_path / filename.lower()`
where `filename` is the uppercased dict key.  Each result pair is
(staged destination name, source file name). -/
def smartStagedCopies (exts : List (List Char))
    (deviceFiles uploadedNames manifestKeys : List (List Char)) :
    List (List Char × List Char) :=
  (find_missing_files (scan_calvin_files exts deviceFiles)
      (get_uploaded_files uploadedNames) manifestKeys).map
    (fun p => (pyStrLowerL p.1, p.2))

/-! ## Concrete sample data used by witnesses and counterexamples -/

/-- A distance function instance; the segmentation claims hold for every
`dist`, and the counterexample runs never reach a distance computation. -/
def distZero : GPSCoord → GPSCoord → ℚ := fun _ _ => 0

/-- A detector configuration with GPS clustering enabled
(`min_photos_per_trip` 2 so that two-photo trips are visible). -/
def cfgEnabled2 : TripConfig :=
  { short_gap_hours := 8, long_gap_days := 3, min_photos_per_trip := 2,
    gps_clustering :=
      { enabled := true, cluster_radius_km := 50, min_location_photos := 5 } }

/-- A detector configuration with GPS clustering disabled. -/
def cfgDisabled2 : TripConfig :=
  { short_gap_hours := 8, long_gap_days := 3, min_photos_per_trip := 2,
    gps_clustering :=
      { enabled := false, cluster_radius_km := 50, min_location_photos := 5 } }

/-- Like `cfgEnabled2` but with `min_photos_per_trip` 1. -/
def cfgEnabled1 : TripConfig :=
  { short_gap_hours := 8, long_gap_days := 3, min_photos_per_trip := 1,
    gps_clustering :=
      { enabled := true, cluster_radius_km := 50, min_location_photos := 5 } }

/-- A geotagged photo at time 0. -/
def photoA : PhotoMeta := { path := "IMG_0001.jpg", dt := 0, gps := some ⟨1, 2⟩ }

/-- A photo 10 hours later with no GPS coordinate. -/
def photoBNoGps : PhotoMeta := { path := "IMG_0002.jpg", dt := 36000, gps := none }

/-- A geotagged photo 10 hours after `photoA`. -/
def photoCGps : PhotoMeta := { path := "IMG_0003.jpg", dt := 36000, gps := some ⟨3, 4⟩ }

/-- A geotagged photo 5 days after `photoA` (beyond the long gap). -/
def photoDLate : PhotoMeta := { path := "IMG_0004.jpg", dt := 432000, gps := some ⟨5, 6⟩ }

/-! ## Segmenter lemmas -/

/-- Rule 1 of lines 505-508: a gap above `long_gap_days` makes the split
decision true whatever the GPS data or clustering configuration. -/
theorem should_start_of_long_gap (dist : GPSCoord → GPSCoord → ℚ)
    (cfg : TripConfig) (trip : List PhotoMeta) (prev cur : PhotoMeta)
    (h : cfg.long_gap_days * 86400 < cur.dt - prev.dt) :
    should_start_new_trip dist cfg trip prev cur = true := by
  simp [should_start_new_trip, h]

/-- Every member of an output trip of the grouping loop comes from the
current accumulator or from the records still to be processed. -/
theorem mem_of_mem_groupLoop (dist : GPSCoord → GPSCoord → ℚ) (cfg : TripConfig) :
    ∀ (l : List PhotoMeta) (prev : PhotoMeta) (acc trip : List PhotoMeta),
      trip ∈ groupLoop dist cfg prev acc l → ∀ x ∈ trip, x ∈ acc ∨ x ∈ l := by
  intro l
  induction l with
  | nil =>
    intro prev acc trip ht x hx
    simp only [groupLoop, finalize_trip] at ht
    split at ht
    · rw [List.mem_singleton] at ht; subst ht; exact Or.inl hx
    · simp at ht
  | cons cur rest ih =>
    intro prev acc trip ht x hx
    simp only [groupLoop] at ht
    split at ht
    · rcases List.mem_append.mp ht with h1 | h2
      · simp only [finalize_trip] at h1
        split at h1
        · rw [List.mem_singleton] at h1; subst h1; exact Or.inl hx
        · simp at h1
      · rcases ih cur [cur] trip h2 x hx with h | h
        · rw [List.mem_singleton] at h; subst h
          exact Or.inr (List.mem_cons_self _ _)
        · exact Or.inr (List.mem_cons_of_mem _ h)
    · rcases ih cur (acc ++ [cur]) trip ht x hx with h | h
      · rcases List.mem_append.mp h with h | h
        · exact Or.inl h
        · rw [List.mem_singleton] at h; subst h
          exact Or.inr (List.mem_cons_self _ _)
      · exact Or.inr (List.mem_cons_of_mem _ h)

/-- When the loop sits just before a long gap between `p` (the previous
record, ending the accumulator) and `q`, no emitted trip contains both. -/
theorem groupLoop_splits_pair (dist : GPSCoord → GPSCoord → ℚ) (cfg : TripConfig)
    (p q : PhotoMeta) (acc l2 : List PhotoMeta)
    (hgap : cfg.long_gap_days * 86400 < q.dt - p.dt)
    (hqacc : q ∉ acc) (hpq : p ≠ q) (hpl2 : p ∉ l2) :
    ∀ trip ∈ groupLoop dist cfg p acc (q :: l2), ¬ (p ∈ trip ∧ q ∈ trip) := by
  intro trip ht hpand
  obtain ⟨hp, hq⟩ := hpand
  rw [show groupLoop dist cfg p acc (q :: l2)
      = finalize_trip cfg acc ++ groupLoop dist cfg q [q] l2 by
    simp only [groupLoop, should_start_of_long_gap dist cfg acc p q hgap, if_true]] at ht
  rcases List.mem_append.mp ht with h1 | h2
  · simp only [finalize_trip] at h1
    split at h1
    · rw [List.mem_singleton] at h1; subst h1; exact hqacc hq
    · simp at h1
  · rcases mem_of_mem_groupLoop dist cfg l2 q [q] trip h2 p hp with h | h
    · rw [List.mem_singleton] at h; exact hpq h
    · exact hpl2 h

/-- Generalisation of the long-gap split over the records processed
before reaching the gap. -/
theorem groupLoop_no_span (dist : GPSCoord → GPSCoord → ℚ) (cfg : TripConfig)
    (p q : PhotoMeta) (l2 : List PhotoMeta)
    (hgap : cfg.long_gap_days * 86400 < q.dt - p.dt)
    (hpq : p ≠ q) (hpl2 : p ∉ l2) :
    ∀ (l1 : List PhotoMeta) (prev : PhotoMeta) (acc : List PhotoMeta),
      q ∉ l1 → q ∉ acc →
      ∀ trip ∈ groupLoop dist cfg prev acc (l1 ++ p :: q :: l2),
        ¬ (p ∈ trip ∧ q ∈ trip) := by
  intro l1
  induction l1 with
  | nil =>
    intro prev acc _ hqacc trip ht
    simp only [List.nil_append, groupLoop] at ht
    split at ht
    · rcases List.mem_append.mp ht with h1 | h2
      · intro hpand
        simp only [finalize_trip] at h1
        split at h1
        · rw [List.mem_singleton] at h1; subst h1; exact hqacc hpand.2
        · simp at h1
      · exact groupLoop_splits_pair dist cfg p q [p] l2 hgap
          (by intro h; rw [List.mem_singleton] at h; exact hpq h.symm) hpq hpl2 trip h2
    · exact groupLoop_splits_pair dist cfg p q (acc ++ [p]) l2 hgap
        (by
          intro h
          rcases List.mem_append.mp h with h | h
          · exact hqacc h
          · rw [List.mem_singleton] at h; exact hpq h.symm) hpq hpl2 trip ht
  | cons a l1' ih =>
    intro prev acc hql1 hqacc trip ht
    have hqa : q ≠ a := fun h => hql1 (h ▸ List.mem_cons_self a l1')
    have hql1' : q ∉ l1' := fun h => hql1 (List.mem_cons_of_mem _ h)
    simp only [List.cons_append, groupLoop] at ht
    split at ht
    · rcases List.mem_append.mp ht with h1 | h2
      · intro hpand
        simp only [finalize_trip] at h1
        split at h1
        · rw [List.mem_singleton] at h1; subst h1; exact hqacc hpand.2
        · simp at h1
      · exact ih a [a] hql1'
          (fun h => hqa (List.mem_singleton.mp h)) trip h2
    · exact ih a (acc ++ [a]) hql1'
        (fun h => (List.mem_append.mp h).elim (fun h => hqacc h)
          (fun h => hqa (List.mem_singleton.mp h))) trip ht

/-- Every trip emitted by the grouping loop passes the
`min_photos_per_trip` guard. -/
theorem groupLoop_min_length (dist : GPSCoord → GPSCoord → ℚ) (cfg : TripConfig) :
    ∀ (l : List PhotoMeta) (prev : PhotoMeta) (acc trip : List PhotoMeta),
      trip ∈ groupLoop dist cfg prev acc l →
      cfg.min_photos_per_trip ≤ trip.length := by
  intro l
  induction l with
  | nil =>
    intro prev acc trip ht
    simp only [groupLoop, finalize_trip] at ht
    split at ht
    · rw [List.mem_singleton] at ht; subst ht; assumption
    · simp at ht
  | cons cur rest ih =>
    intro prev acc trip ht
    simp only [groupLoop] at ht
    split at ht
    · rcases List.mem_append.mp ht with h1 | h2
      · simp only [finalize_trip] at h1
        split at h1
        · rw [List.mem_singleton] at h1; subst h1; assumption
        · simp at h1
      · exact ih cur [cur] trip h2
    · exact ih cur (acc ++ [cur]) trip ht

/-! ## Claims C1-C4 -/

/-- Claim C1 is false on the code: with clustering enabled, a gap of 10
hours (above `short_gap_hours = 8`, below `long_gap_days = 3`) and a new
record without GPS, `detect_location_change` returns `False` (line 550),
so the segmenter keeps both records in one trip instead of splitting. -/
theorem claim1_counterexample :
    cfgEnabled2.gps_clustering.enabled = true
    ∧ photoBNoGps.gps = none
    ∧ cfgEnabled2.short_gap_hours * 3600 < photoBNoGps.dt - photoA.dt
    ∧ photoBNoGps.dt - photoA.dt ≤ cfgEnabled2.long_gap_days * 86400
    ∧ group_photos_by_enhanced_trips distZero cfgEnabled2 [photoA, photoBNoGps]
        = [[photoA, photoBNoGps]] :=
  ⟨rfl, rfl, by decide, by decide, by decide⟩

/-- Claim C1 (amended): with GPS clustering enabled, when the gap between
consecutive records exceeds `short_gap_hours` but not `long_gap_days` and
the newer record has no GPS coordinate, the segmenter treats the missing
coordinate as "no location change" and extends the current trip at that
gap (it does not split). -/
theorem claim1_missing_gps_extends (dist : GPSCoord → GPSCoord → ℚ)
    (cfg : TripConfig) (prev cur : PhotoMeta) (acc rest : List PhotoMeta)
    (hen : cfg.gps_clustering.enabled = true)
    (hgps : cur.gps = none)
    (hshort : cfg.short_gap_hours * 3600 < cur.dt - prev.dt)
    (hlong : cur.dt - prev.dt ≤ cfg.long_gap_days * 86400) :
    groupLoop dist cfg prev acc (cur :: rest)
      = groupLoop dist cfg cur (acc ++ [cur]) rest := by
  have hsnt : should_start_new_trip dist cfg acc prev cur = false := by
    simp [should_start_new_trip, detect_location_change, hen, hgps,
      hshort, not_lt.mpr hlong]
  simp [groupLoop, hsnt]

/-- Witness for `claim1_missing_gps_extends` at a concrete 10-hour gap. -/
theorem claim1_witness :
    groupLoop distZero cfgEnabled2 photoA [photoA] [photoBNoGps]
      = groupLoop distZero cfgEnabled2 photoBNoGps [photoA, photoBNoGps] [] :=
  claim1_missing_gps_extends distZero cfgEnabled2 photoA photoBNoGps [photoA] []
    rfl rfl (by decide) (by decide)

/-- Claim C2 is false on the code in its "fewer than `min_location_photos`
geotagged records" disjunct: with clustering enabled, a 10-hour gap and
only one geotagged record in the current trip (below
`min_location_photos = 5`), `detect_location_change` returns `False`
(lines 556-557), so the segmenter extends the trip instead of splitting. -/
theorem claim2_counterexample :
    cfgEnabled2.gps_clustering.enabled = true
    ∧ ([photoA].filterMap (fun p => p.gps)).length
        < cfgEnabled2.gps_clustering.min_location_photos
    ∧ cfgEnabled2.short_gap_hours * 3600 < photoCGps.dt - photoA.dt
    ∧ photoCGps.dt - photoA.dt ≤ cfgEnabled2.long_gap_days * 86400
    ∧ group_photos_by_enhanced_trips distZero cfgEnabled2 [photoA, photoCGps]
        = [[photoA, photoCGps]] :=
  ⟨rfl, by decide, by decide, by decide, by decide⟩

/-- Claim C2 (amended): at a gap above `short_gap_hours` and within
`long_gap_days`, the segmenter starts a new trip when GPS clustering is
disabled; but when clustering is enabled and the current trip holds fewer
than `min_location_photos` geotagged records it extends the current trip
(it does not split). -/
theorem claim2_short_gap_cases (dist : GPSCoord → GPSCoord → ℚ)
    (cfg : TripConfig) (prev cur : PhotoMeta) (acc rest : List PhotoMeta)
    (hshort : cfg.short_gap_hours * 3600 < cur.dt - prev.dt)
    (hlong : cur.dt - prev.dt ≤ cfg.long_gap_days * 86400) :
    (cfg.gps_clustering.enabled = false →
      groupLoop dist cfg prev acc (cur :: rest)
        = finalize_trip cfg acc ++ groupLoop dist cfg cur [cur] rest)
    ∧ (cfg.gps_clustering.enabled = true →
      (acc.filterMap (fun p => p.gps)).length
          < cfg.gps_clustering.min_location_photos →
      groupLoop dist cfg prev acc (cur :: rest)
        = groupLoop dist cfg cur (acc ++ [cur]) rest) := by
  constructor
  · intro hen
    have hsnt : should_start_new_trip dist cfg acc prev cur = true := by
      simp [should_start_new_trip, hen, hshort, not_lt.mpr hlong]
    simp [groupLoop, hsnt]
  · intro hen hfew
    have hdet : detect_location_change dist cfg acc cur = false := by
      cases hg : cur.gps with
      | none => simp [detect_location_change, hen, hg]
      | some g => simp [detect_location_change, hen, hg, hfew]
    have hsnt : should_start_new_trip dist cfg acc prev cur = false := by
      simp [should_start_new_trip, hen, hshort, not_lt.mpr hlong, hdet]
    simp [groupLoop, hsnt]

/-- Witness for `claim2_short_gap_cases`: the disabled-clustering split
and the few-geotags extension, both at a concrete 10-hour gap. -/
theorem claim2_witness :
    (groupLoop distZero cfgDisabled2 photoA [photoA] [photoCGps]
      = finalize_trip cfgDisabled2 [photoA]
          ++ groupLoop distZero cfgDisabled2 photoCGps [photoCGps] [])
    ∧ (groupLoop distZero cfgEnabled2 photoA [photoA] [photoCGps]
      = groupLoop distZero cfgEnabled2 photoCGps [photoA, photoCGps] []) :=
  ⟨(claim2_short_gap_cases distZero cfgDisabled2 photoA photoCGps [photoA] []
      (by decide) (by decide)).1 rfl,
   (claim2_short_gap_cases distZero cfgEnabled2 photoA photoCGps [photoA] []
      (by decide) (by decide)).2 rfl (by decide)⟩

/-- Claim C3: on a time-sorted input of pairwise-distinct records, a gap
above `long_gap_days` between consecutive records `p`, `q` always starts
a new trip there — for every distance function and configuration, no
output trip contains both `p` and `q`. -/
theorem claim3_long_gap_always_splits (dist : GPSCoord → GPSCoord → ℚ)
    (cfg : TripConfig) (l1 l2 : List PhotoMeta) (p q : PhotoMeta)
    (hsorted : sortedByDt (l1 ++ p :: q :: l2) = true)
    (hnd : (l1 ++ p :: q :: l2).Nodup)
    (hgap : cfg.long_gap_days * 86400 < q.dt - p.dt) :
    ∀ trip ∈ group_photos_by_enhanced_trips dist cfg (l1 ++ p :: q :: l2),
      ¬ (p ∈ trip ∧ q ∈ trip) := by
  rw [List.nodup_append] at hnd
  obtain ⟨hnd1, hnd2, hdisj⟩ := hnd
  rw [List.nodup_cons] at hnd2
  obtain ⟨hpmem, hnd2⟩ := hnd2
  rw [List.nodup_cons] at hnd2
  obtain ⟨hqmem, _⟩ := hnd2
  have hpq : p ≠ q := fun h => hpmem (h ▸ List.mem_cons_self q l2)
  have hpl2 : p ∉ l2 := fun h => hpmem (List.mem_cons_of_mem _ h)
  have hql1 : q ∉ l1 := fun h => hdisj h (List.mem_cons_of_mem _ (List.mem_cons_self q l2))
  cases l1 with
  | nil =>
    intro trip ht
    simp only [List.nil_append, group_photos_by_enhanced_trips] at ht
    exact groupLoop_splits_pair dist cfg p q [p] l2 hgap
      (fun h => hpq (List.mem_singleton.mp h).symm) hpq hpl2 trip ht
  | cons a t =>
    intro trip ht
    simp only [List.cons_append, group_photos_by_enhanced_trips] at ht
    have hqa : q ≠ a := fun h => hql1 (h ▸ List.mem_cons_self a t)
    have hqt : q ∉ t := fun h => hql1 (List.mem_cons_of_mem _ h)
    exact groupLoop_no_span dist cfg p q l2 hgap hpq hpl2 t a [a] hqt
      (fun h => hqa (List.mem_singleton.mp h)) trip ht

/-- Witness for `claim3_long_gap_always_splits`: two records five days
apart; the first output trip holds only the first record. -/
theorem claim3_witness :
    ¬ (photoA ∈ ([photoA] : List PhotoMeta) ∧ photoDLate ∈ ([photoA] : List PhotoMeta)) :=
  claim3_long_gap_always_splits distZero cfgEnabled1 [] [] photoA photoDLate
    (by decide) (by decide) (by decide) [photoA] (by decide)

/-- Claim C4: for every input sequence, distance function and
configuration, every trip in the segmenter's output contains at least
`min_photos_per_trip` records (smaller accumulated groups are dropped). -/
theorem claim4_min_photos_per_trip (dist : GPSCoord → GPSCoord → ℚ)
    (cfg : TripConfig) (photos : List PhotoMeta) :
    ∀ trip ∈ group_photos_by_enhanced_trips dist cfg photos,
      cfg.min_photos_per_trip ≤ trip.length := by
  intro trip ht
  cases photos with
  | nil => simp [group_photos_by_enhanced_trips] at ht
  | cons first rest =>
    exact groupLoop_min_length dist cfg rest first [first] trip ht

/-- Witness for `claim4_min_photos_per_trip` on a concrete singleton run. -/
theorem claim4_witness :
    cfgEnabled1.min_photos_per_trip ≤ ([photoA] : List PhotoMeta).length :=
  claim4_min_photos_per_trip distZero cfgEnabled1 [photoA] [photoA] (by decide)

/-! ## Claim C5 -/

/-- A scanner configuration with batch size 1. -/
def scanCfgB1 : ScanConfig := { photo_extensions := [".jpg"], batch_size := 1 }

/-- Source file `a.jpg`, 1 byte. -/
def srcA : SrcFile := { stem := "a", ext := ".jpg", size := 1 }

/-- Source file `b.jpg`, 1 byte. -/
def srcB : SrcFile := { stem := "b", ext := ".jpg", size := 1 }

/-- Claim C5 fails on the code: the `break` of line 257 exits only the
innermost `for photo_file in batch:` loop, while the batch loop
(line 214) and the directory loop (line 191) continue, so after the limit
is reached every later batch copies one more file.  With
`max_photos = 1`, `batch_size = 1` and one directory holding `a.jpg` and
`b.jpg`, both files are copied into the empty staging area and the
function reports 2 — the code's own comment ("Stop if we've reached
max_photos limit") and the "Reached limit" message announce a stop that
does not happen, so this is a bug in the code rather than in the claim. -/
theorem claim5_limit_overrun :
    copy_all_photos scanCfgB1 [[srcA, srcB]] (some 1) []
      = ([("a.jpg", 1), ("b.jpg", 1)], 2) := by decide

/-! ## Claim C6 -/

/-- Claim C6 is false on the code: when no source device is found,
`run_optimized_sync` returns `False` at line 954 without appending
anything to `self.stats['errors']`, so the process exits with status 1
while the accumulated error list is empty — the claimed "zero iff the
error list is empty" biconditional fails. -/
theorem claim6_counterexample :
    (run_optimized_sync
        { sourceDeviceFound := false, destinationExists := true,
          resumeStaging := false, photoDirsFound := true,
          pipelineErrors := [] }).2 = []
    ∧ mainExitCode
        { sourceDeviceFound := false, destinationExists := true,
          resumeStaging := false, photoDirsFound := true,
          pipelineErrors := [] } = 1 :=
  ⟨rfl, rfl⟩

/-- Claim C6 (amended): the process exits with status zero iff the run's
accumulated error list is empty AND the run was not aborted by a fatal
early check — i.e. a source device was found and the destination root
exists; the fatal early-abort cases exit non-zero with an empty error
list. -/
theorem claim6_exit_iff (env : RunEnv) :
    mainExitCode env = 0 ↔
      ((run_optimized_sync env).2 = []
        ∧ env.sourceDeviceFound = true ∧ env.destinationExists = true) := by
  obtain ⟨sf, de, rs, pf, errs⟩ := env
  cases sf <;> cases de <;> cases rs <;> cases pf <;> cases errs <;>
    simp [mainExitCode, run_optimized_sync]

/-! ## Claim C9 -/

/-- A successful lookup means the key is among the staged names. -/
theorem lookup_some_mem_keys :
    ∀ (l : Staging) (k : String) (v : ℕ),
      l.lookup k = some v → k ∈ l.map Prod.fst := by
  intro l k v
  induction l with
  | nil => intro h; simp [List.lookup] at h
  | cons p t ih =>
    obtain ⟨pk, pv⟩ := p
    intro h
    rw [List.lookup] at h
    by_cases hk : k == pk
    · have hk' : k = pk := beq_iff_eq.mp hk
      subst hk'
      simp
    · rw [Bool.not_eq_true] at hk
      rw [hk] at h
      simp only [List.map_cons]
      exact List.mem_cons_of_mem _ (ih (by simpa using h))

/-- When the plain destination name holds a file of the source's size,
the candidate search ends in a skip at its first step (lines 231-234). -/
theorem findDest_skip_same_size (staged : Staging) (f : SrcFile)
    (h : staged.lookup (f.stem ++ f.ext) = some f.size) :
    findDest staged f = none := by
  show findDestGo staged f (staged.length + 2) 0 = none
  rw [show staged.length + 2 = staged.length + 1 + 1 from rfl, findDestGo,
    show candName f 0 = f.stem ++ f.ext from rfl, h]
  simp

/-- The candidate search walks the counters in order: if every candidate
before `j` exists with a size different from the source's size and
candidate `j` is free, the search returns candidate `j`. -/
theorem findDestGo_reaches (staged : Staging) (f : SrcFile) (j : ℕ)
    (hfree : staged.lookup (candName f j) = none) :
    ∀ (d i fuel : ℕ), i + d = j → d < fuel →
      (∀ m, i ≤ m → m < j →
        ∃ sm, staged.lookup (candName f m) = some sm ∧ sm ≠ f.size) →
      findDestGo staged f fuel i = some (candName f j) := by
  intro d
  induction d with
  | zero =>
    intro i fuel hij hfuel _
    obtain ⟨fl, rfl⟩ : ∃ fl, fuel = fl + 1 := ⟨fuel - 1, by omega⟩
    have hi : i = j := by omega
    subst hi
    rw [findDestGo, hfree]
  | succ d ih =>
    intro i fuel hij hfuel hmid
    obtain ⟨fl, rfl⟩ : ∃ fl, fuel = fl + 1 := ⟨fuel - 1, by omega⟩
    obtain ⟨sm, hsm, hne⟩ := hmid i le_rfl (by omega)
    rw [findDestGo, hsm]
    simp only [if_neg hne]
    exact ih (i + 1) fl (by omega) (by omega) (fun m hm hm2 => hmid m (by omega) hm2)

/-- A suffixed candidate name never collides with the plain name. -/
theorem candName_ne_plain (f : SrcFile) (j : ℕ) (hj : 1 ≤ j) :
    candName f j ≠ f.stem ++ f.ext := by
  rw [show candName f j = f.stem ++ "_" ++ toString j ++ f.ext from by
    simp [candName]; omega]
  intro heq
  have hdata := congrArg String.data heq
  simp only [String.data_append] at hdata
  have hlen := congrArg List.length hdata
  simp only [List.length_append, List.length_cons, List.length_nil] at hlen
  omega

/-- Claim C9 (amended): when the destination name already exists with the
source file's exact size, the copy is skipped (not an error) and, the
staging names being distinct, exactly one file with that name remains;
when it exists with a different size, incrementing numeric suffixes are
tried in order — a candidate that exists with the source's size causes a
skip, and otherwise the file is copied at the first non-existing
suffixed candidate, which differs from the plain name, so both files end
up staged under distinct names.  The outcome is a pure function of the
input ordering and the existing destination contents. -/
theorem claim9_dedup_policy (staged : Staging) (f : SrcFile) :
    (staged.lookup (f.stem ++ f.ext) = some f.size →
      stageFile staged f = (staged, false)
      ∧ ((staged.map Prod.fst).Nodup →
        ((stageFile staged f).1.map Prod.fst).count (f.stem ++ f.ext) = 1))
    ∧ (∀ s0 j, staged.lookup (f.stem ++ f.ext) = some s0 → s0 ≠ f.size →
        1 ≤ j → j ≤ staged.length + 1 →
        (∀ k, 1 ≤ k → k < j →
          ∃ sk, staged.lookup (candName f k) = some sk ∧ sk ≠ f.size) →
        staged.lookup (candName f j) = none →
        stageFile staged f = (staged ++ [(candName f j, f.size)], true)
          ∧ candName f j ≠ f.stem ++ f.ext) := by
  constructor
  · intro h
    have hnone : findDest staged f = none := findDest_skip_same_size staged f h
    refine ⟨by simp [stageFile, hnone], ?_⟩
    intro hnd
    have hmem : (f.stem ++ f.ext) ∈ staged.map Prod.fst :=
      lookup_some_mem_keys staged _ _ h
    rw [show (stageFile staged f).1 = staged from by simp [stageFile, hnone]]
    exact List.count_eq_one_of_mem hnd hmem
  · intro s0 j h0 hne0 hj1 hjle hmid hfree
    have hsome : findDest staged f = some (candName f j) := by
      show findDestGo staged f (staged.length + 2) 0 = some (candName f j)
      refine findDestGo_reaches staged f j hfree j 0 (staged.length + 2)
        (by omega) (by omega) ?_
      intro m _ hmj
      rcases Nat.eq_zero_or_pos m with hm | hm
      · subst hm
        exact ⟨s0, by rw [show candName f 0 = f.stem ++ f.ext from rfl]; exact h0, hne0⟩
      · exact hmid m hm hmj
    exact ⟨by simp [stageFile, hsome], candName_ne_plain f j hj1⟩

/-- The staging contents used by the claim C9 counterexample: the plain
name holds 10 bytes; the first suffixed name holds 5 bytes. -/
def stagedC9 : Staging := [("p.jpg", 10), ("p_1.jpg", 5)]

/-- The source file of the claim C9 counterexample: 5 bytes. -/
def srcC9 : SrcFile := { stem := "p", ext := ".jpg", size := 5 }

/-- Claim C9 is false on the code as a universal statement: the
destination name `p.jpg` exists with a different size (10 ≠ 5), but the
suffix search does not run "until a free name is found" — at candidate
`p_1.jpg` it finds a file of equal size and skips (lines 231-234 run on
every candidate), so the source file is not staged at all and no two
distinctly-named copies result. -/
theorem claim9_counterexample :
    stagedC9.lookup (srcC9.stem ++ srcC9.ext) = some 10
    ∧ (10 : ℕ) ≠ srcC9.size
    ∧ stageFile stagedC9 srcC9 = (stagedC9, false) :=
  ⟨by decide, by decide, by decide⟩

/-- Witness for `claim9_dedup_policy`: an equal-size collision skips; a
different-size collision with a free first suffix copies to `x_1.jpg`. -/
theorem claim9_witness :
    stageFile [("x.jpg", 7)] { stem := "x", ext := ".jpg", size := 7 }
      = ([("x.jpg", 7)], false)
    ∧ stageFile [("x.jpg", 9)] { stem := "x", ext := ".jpg", size := 7 }
      = ([("x.jpg", 9), ("x_1.jpg", 7)], true) := by
  constructor
  · exact ((claim9_dedup_policy [("x.jpg", 7)]
      { stem := "x", ext := ".jpg", size := 7 }).1 (by decide)).1
  · exact ((claim9_dedup_policy [("x.jpg", 9)]
      { stem := "x", ext := ".jpg", size := 7 }).2 9 1 (by decide) (by decide)
      (by decide) (by decide)
      (fun k hk hk2 => absurd (hk.trans_lt hk2) (lt_irrefl 1)) (by decide)).1

/-! ## Claim C10 -/

/-- A name made of ASCII characters only (the range on which the model's
`pyCharUpper`/`pyCharLower` agree with Python's `str.upper`/`str.lower`). -/
def asciiName (s : List Char) : Bool :=
  s.all (fun c => decide (c.toNat < 128))

/-- The name contains at least one ASCII uppercase letter. -/
def hasUpperAscii (s : List Char) : Bool :=
  s.any (fun c => decide (65 ≤ c.toNat ∧ c.toNat ≤ 90))

/-- Lower-after-upper equals plain lower on every ASCII character
(checked pointwise over the ASCII range). -/
theorem asciiLowerUpperBall :
    ∀ n < 128, pyCharLower (pyCharUpper (Char.ofNat n)) = pyCharLower (Char.ofNat n) := by
  decide

/-- Lower-after-upper moves every ASCII uppercase letter
(checked pointwise over the uppercase range). -/
theorem asciiUpperNeBall :
    ∀ n < 91, 65 ≤ n → pyCharLower (pyCharUpper (Char.ofNat n)) ≠ Char.ofNat n := by
  decide

/-- Lower-after-upper equals plain lower on an ASCII character. -/
theorem pyCharLU_ascii (c : Char) (h : c.toNat < 128) :
    pyCharLower (pyCharUpper c) = pyCharLower c := by
  have h2 := asciiLowerUpperBall c.toNat h
  rwa [Char.ofNat_toNat] at h2

/-- Lower-after-upper changes an ASCII uppercase character. -/
theorem pyCharLU_ne_of_upper (c : Char) (h1 : 65 ≤ c.toNat) (h2 : c.toNat ≤ 90) :
    pyCharLower (pyCharUpper c) ≠ c := by
  have h3 := asciiUpperNeBall c.toNat (by omega) h1
  rwa [Char.ofNat_toNat] at h3

/-- A map that returns the list unchanged is pointwise the identity. -/
theorem map_eq_self_mem {α : Type} :
    ∀ (l : List α) (f : α → α), l.map f = l → ∀ x ∈ l, f x = x := by
  intro l f
  induction l with
  | nil => intro _ x hx; simp at hx
  | cons a t ih =>
    intro h x hx
    rw [List.map_cons] at h
    injection h with h1 h2
    rcases List.mem_cons.mp hx with rfl | hx
    · exact h1
    · exact ih h2 x hx

/-- A dict insertion preserves an entry invariant. -/
theorem pyDictInsert_entries (P : List Char × List Char → Prop)
    (d : List (List Char × List Char)) (k v : List Char)
    (hd : ∀ e ∈ d, P e) (hkv : P (k, v)) :
    ∀ e ∈ pyDictInsert d k v, P e := by
  intro e he
  unfold pyDictInsert at he
  split at he
  · rw [List.mem_map] at he
    obtain ⟨p, hp, rfl⟩ := he
    by_cases h : p.1 == k
    · rw [if_pos h]
      have hk : p.1 = k := beq_iff_eq.mp h
      rw [hk]
      exact hkv
    · rw [Bool.not_eq_true] at h
      rw [if_neg (by simp [h])]
      exact hd p hp
  · rcases List.mem_append.mp he with h | h
    · exact hd e h
    · rw [List.mem_singleton] at h
      subst h
      exact hkv

/-- The fold building the Calvin dict preserves an entry invariant. -/
theorem foldl_pyDictInsert_entries (P : List Char × List Char → Prop) :
    ∀ (l : List (List Char)) (d : List (List Char × List Char)),
      (∀ e ∈ d, P e) → (∀ n ∈ l, P (pyStrUpperL n, n)) →
      ∀ e ∈ l.foldl (fun d n => pyDictInsert d (pyStrUpperL n) n) d, P e := by
  intro l
  induction l with
  | nil => intro d hd _ e he; exact hd e he
  | cons n t ih =>
    intro d hd hl e he
    simp only [List.foldl_cons] at he
    exact ih (pyDictInsert d (pyStrUpperL n) n)
      (pyDictInsert_entries P d (pyStrUpperL n) n hd (hl n (List.mem_cons_self _ _)))
      (fun m hm => hl m (List.mem_cons_of_mem _ hm)) e he

/-- Every entry of the Calvin scan dict is an eligible on-device file
keyed by its uppercased name. -/
theorem scan_calvin_files_entries (exts : List (List Char))
    (deviceFiles : List (List Char)) :
    ∀ e ∈ scan_calvin_files exts deviceFiles,
      e.2 ∈ deviceFiles ∧ eligibleSmart exts e.2 = true ∧ e.1 = pyStrUpperL e.2 := by
  unfold scan_calvin_files
  refine foldl_pyDictInsert_entries _ _ [] (by simp) ?_
  intro n hn
  rw [List.mem_filter] at hn
  exact ⟨hn.1, hn.2, rfl⟩

/-- Claim C10: every file the smart sync stages is an eligible on-device
file whose uppercased name occurs in neither the uploaded set nor the
manifest set (the comparison is by uppercased name); its staged name is
the `.lower()` of the uppercased name — for an ASCII name this is the
fully lowercased file name, and it differs from the on-device name
whenever that name contains an uppercase letter. -/
theorem claim10_smart_lowercase_staging (exts : List (List Char))
    (deviceFiles uploadedNames manifestKeys : List (List Char)) :
    ∀ d ∈ smartStagedCopies exts deviceFiles uploadedNames manifestKeys,
      d.2 ∈ deviceFiles
      ∧ eligibleSmart exts d.2 = true
      ∧ pyStrUpperL d.2 ∉ get_uploaded_files uploadedNames ++ manifestKeys
      ∧ d.1 = pyStrLowerL (pyStrUpperL d.2)
      ∧ (asciiName d.2 = true → d.1 = pyStrLowerL d.2)
      ∧ (asciiName d.2 = true → hasUpperAscii d.2 = true → d.1 ≠ d.2) := by
  intro d hd
  unfold smartStagedCopies at hd
  rw [List.mem_map] at hd
  obtain ⟨p, hp, rfl⟩ := hd
  unfold find_missing_files at hp
  rw [List.mem_filter] at hp
  obtain ⟨hpc, hpn⟩ := hp
  have hpn' : p.1 ∉ get_uploaded_files uploadedNames ++ manifestKeys :=
    of_decide_eq_true hpn
  obtain ⟨hmem, helig, hkey⟩ := scan_calvin_files_entries exts deviceFiles p hpc
  refine ⟨hmem, helig, by rw [← hkey]; exact hpn', by rw [hkey], ?_, ?_⟩
  · intro hascii
    show pyStrLowerL p.1 = pyStrLowerL p.2
    rw [hkey]
    unfold pyStrLowerL pyStrUpperL
    rw [List.map_map]
    refine List.map_congr_left ?_
    intro c hc
    exact pyCharLU_ascii c
      (of_decide_eq_true (List.all_eq_true.mp hascii c hc))
  · intro hascii hupper
    show pyStrLowerL p.1 ≠ p.2
    rw [hkey]
    unfold pyStrLowerL pyStrUpperL
    rw [List.map_map]
    intro heq
    obtain ⟨c, hc, hb⟩ := List.any_eq_true.mp hupper
    obtain ⟨hb1, hb2⟩ := of_decide_eq_true hb
    exact pyCharLU_ne_of_upper c hb1 hb2 (map_eq_self_mem p.2 _ heq c hc)

/-- The on-device name `A.JPG` of the claim C10 witness. -/
def aJPGName : List Char := ['A', '.', 'J', 'P', 'G']

/-- The staged name `a.jpg` of the claim C10 witness. -/
def aLowName : List Char := ['a', '.', 'j', 'p', 'g']

/-- Witness for `claim10_smart_lowercase_staging`: the device file
`A.JPG` is staged as `a.jpg`, a different name. -/
theorem claim10_witness :
    aJPGName ∈ ([aJPGName] : List (List Char))
    ∧ eligibleSmart [".jpg".data] aJPGName = true
    ∧ pyStrUpperL aJPGName ∉ get_uploaded_files [] ++ ([] : List (List Char))
    ∧ aLowName = pyStrLowerL (pyStrUpperL aJPGName)
    ∧ (asciiName aJPGName = true → aLowName = pyStrLowerL aJPGName)
    ∧ (asciiName aJPGName = true → hasUpperAscii aJPGName = true →
        aLowName ≠ aJPGName) :=
  claim10_smart_lowercase_staging [".jpg".data] [aJPGName] [] []
    (aLowName, aJPGName) (by decide)

/-! ## Claim C8 -/

/-- The error entry appended for one missing file (line 841). -/
def missingMsg (n : List Char) : List Char :=
  "Missing file: ".data ++ n

/-- A one-entry manifest file recording the name `b`, used by the claim
C8 counterexample and witness. -/
def fileB : ManFile :=
  { name := ['b'], size := 1, mtime := [], ext := [], onDisk := true }

/-- Claim C8 is false on the code in its "each extra file" clause:
verifying the current file `a` against a manifest recording only `b`
finds `b` missing and `a` extra, yet the error list receives exactly the
one entry for the missing `b` — the extra `a` is printed (lines 843-846)
but never appended to `self.stats['errors']`. -/
theorem claim8_counterexample :
    verify_against_manifest [['a']] (create_manifest [] [] [fileB])
      = (false, [missingMsg ['b']]) := by
  decide

/-- Claim C8 (amended): verification always returns (it never raises past
the orchestrator, which ignores its boolean result and proceeds), and the
entries it appends to the run's error list are exactly the
`"Missing file: <name>"` records of the manifest names absent from the
current files: every missing file is appended, and nothing else — in
particular no extra file — is appended. -/
theorem claim8_missing_appended (current lines : List (List Char)) :
    (∀ n, n ∈ manifestNames lines → n ∉ current →
      missingMsg n ∈ (verify_against_manifest current lines).2)
    ∧ (∀ e ∈ (verify_against_manifest current lines).2,
      ∃ n, n ∈ manifestNames lines ∧ n ∉ current ∧ e = missingMsg n) := by
  constructor
  · intro n hn hnc
    show missingMsg n ∈ (sortNames ((manifestNames lines).dedup.filter
      (fun n => decide (n ∉ current.dedup)))).map (fun n => "Missing file: ".data ++ n)
    refine List.mem_map.mpr ⟨n, ?_, rfl⟩
    unfold sortNames
    rw [(List.perm_insertionSort _ _).mem_iff]
    rw [List.mem_filter]
    exact ⟨List.mem_dedup.mpr hn,
      decide_eq_true (fun h => hnc (List.mem_dedup.mp h))⟩
  · intro e he
    replace he : e ∈ (sortNames ((manifestNames lines).dedup.filter
      (fun n => decide (n ∉ current.dedup)))).map
        (fun n => "Missing file: ".data ++ n) := he
    obtain ⟨n, hn, rfl⟩ := List.mem_map.mp he
    unfold sortNames at hn
    rw [(List.perm_insertionSort _ _).mem_iff, List.mem_filter] at hn
    exact ⟨n, List.mem_dedup.mp hn.1,
      fun h => of_decide_eq_true hn.2 (List.mem_dedup.mpr h), rfl⟩

/-- Witness for `claim8_missing_appended`: the missing `b` is appended. -/
theorem claim8_witness :
    missingMsg ['b']
      ∈ (verify_against_manifest [] (create_manifest [] [] [fileB])).2 :=
  (claim8_missing_appended [] (create_manifest [] [] [fileB])).1 ['b']
    (by decide) (by decide)

/-! ## Claim C7 -/

/-- A string free of the line-break characters: written raw into the
manifest, a `'\n'` or `'\r'` would split the entry across two physical
lines, so only newline-free strings are covered by the line-list model
of `create_manifest`. -/
def noNewline (s : List Char) : Prop :=
  '\n' ∉ s ∧ '\r' ∉ s

instance (s : List Char) : Decidable (noNewline s) :=
  inferInstanceAs (Decidable ('\n' ∉ s ∧ '\r' ∉ s))

/-- A file name that survives the manifest's line format: it does not
start with `#` (which the reader would skip as a comment, line 822), the
`' | '` separator parse recovers it whole (no `' | '` occurrence inside
it and no `' |'` suffix that would merge with the separator), `strip()`
leaves it unchanged, and it contains no newline or carriage-return
character (which the file write/read would turn into a line break,
splitting the entry). -/
def manifestSafeName (name : List Char) : Prop :=
  startsWithHash name = false
  ∧ splitFirstOn sepBar (name ++ sepBar) = name
  ∧ pyStripL name = name
  ∧ noNewline name

instance (name : List Char) : Decidable (manifestSafeName name) :=
  inferInstanceAs (Decidable (startsWithHash name = false
    ∧ (splitFirstOn sepBar (name ++ sepBar) = name
      ∧ (pyStripL name = name ∧ noNewline name))))

/-- A prefix test against an extended list only depends on the first part
when that part is at least as long as the candidate prefix. -/
theorem isPrefixOf_append_of_le (p a b : List Char) (h : p.length ≤ a.length) :
    p.isPrefixOf (a ++ b) = p.isPrefixOf a := by
  cases hab : List.isPrefixOf p (a ++ b) with
  | true =>
    have hpre : p <+: a ++ b := List.isPrefixOf_iff_prefix.mp hab
    have heq : p = (a ++ b).take p.length := List.prefix_iff_eq_take.mp hpre
    rw [List.take_append_eq_append_take, Nat.sub_eq_zero_of_le h,
      List.take_zero, List.append_nil] at heq
    exact (List.isPrefixOf_iff_prefix.mpr (List.prefix_iff_eq_take.mpr heq)).symm
  | false =>
    cases hpa : List.isPrefixOf p a with
    | false => rfl
    | true =>
      have hp : p <+: a := List.isPrefixOf_iff_prefix.mp hpa
      rw [List.isPrefixOf_iff_prefix.mpr (hp.trans (List.prefix_append a b))] at hab
      simp at hab

/-- The one-step equation of `splitFirstOn`. -/
theorem splitFirstOn_cons (sep : List Char) (c : Char) (t : List Char) :
    splitFirstOn sep (c :: t)
      = if sep.isPrefixOf (c :: t) then [] else c :: splitFirstOn sep t := rfl

/-- If the separator parse recovers `name` from `name ++ sepBar`, it also
recovers it from the full line `name ++ sepBar ++ rest`: the first
separator occurrence sits at the boundary whatever follows it. -/
theorem splitFirstOn_boundary (name : List Char) (rest : List Char)
    (h : splitFirstOn sepBar (name ++ sepBar) = name) :
    splitFirstOn sepBar (name ++ (sepBar ++ rest)) = name := by
  induction name with
  | nil =>
    have hpre : List.isPrefixOf sepBar (sepBar ++ rest) = true :=
      List.isPrefixOf_iff_prefix.mpr (List.prefix_append _ _)
    simp only [List.nil_append]
    rw [show sepBar ++ rest = ' ' :: ('|' :: (' ' :: rest)) from rfl, splitFirstOn_cons]
    rw [show List.isPrefixOf sepBar (' ' :: ('|' :: (' ' :: rest))) = true from hpre]
    simp
  | cons c nm ih =>
    rw [List.cons_append] at h ⊢
    rw [splitFirstOn_cons] at h ⊢
    by_cases hp : List.isPrefixOf sepBar (c :: (nm ++ sepBar)) = true
    · rw [if_pos hp] at h
      exact absurd h (by simp)
    · have hp' : List.isPrefixOf sepBar (c :: (nm ++ sepBar)) = false :=
        Bool.not_eq_true _ ▸ hp
      rw [if_neg hp] at h
      rw [List.cons.injEq] at h
      have hp2 : List.isPrefixOf sepBar (c :: (nm ++ (sepBar ++ rest))) = false := by
        rw [show c :: (nm ++ (sepBar ++ rest)) = (c :: (nm ++ sepBar)) ++ rest from by simp]
        rw [isPrefixOf_append_of_le sepBar _ rest (by simp [sepBar])]
        exact hp'
      rw [if_neg (by rw [hp2]; simp)]
      rw [ih h.2]

/-- An element that fails the predicate survives `dropWhile`. -/
theorem mem_dropWhile_of_not (p : Char → Bool) :
    ∀ (l : List Char) (c : Char), c ∈ l → p c = false → c ∈ l.dropWhile p := by
  intro l
  induction l with
  | nil => intro c hc _; simp at hc
  | cons a t ih =>
    intro c hc hp
    rw [List.dropWhile_cons]
    by_cases ha : p a = true
    · rw [if_pos ha]
      rcases List.mem_cons.mp hc with rfl | hct
      · rw [hp] at ha; exact absurd ha (by simp)
      · exact ih c hct hp
    · rw [if_neg ha]
      exact hc

/-- A list holding one non-whitespace character does not strip to empty. -/
theorem pyStripL_ne_nil (l : List Char) (c : Char) (hc : c ∈ l)
    (hns : pySpaceChar c = false) : pyStripL l ≠ [] := by
  intro h
  unfold pyStripL at h
  rw [List.reverse_eq_nil_iff, List.dropWhile_eq_nil_iff] at h
  have hcd : c ∈ (l.dropWhile pySpaceChar).reverse :=
    List.mem_reverse.mpr (mem_dropWhile_of_not pySpaceChar l c hc hns)
  have h2 := h c hcd
  rw [hns] at h2
  exact absurd h2 (by simp)

/-- Appending does not change a positive first-character test. -/
theorem startsWithHash_append (l r : List Char) (h : startsWithHash l = true) :
    startsWithHash (l ++ r) = true := by
  cases l with
  | nil => simp [startsWithHash] at h
  | cons c t => exact h

/-- A line starting with `#` is skipped by the manifest reader. -/
theorem skipLine_of_hash (l : List Char) (h : startsWithHash l = true) :
    skipLine l = true := by
  unfold skipLine
  rw [h]
  rfl

/-- Every manifest header line is skipped by the reader. -/
theorem header_lines_skipped (nowIso desc : List Char) (n : ℕ) :
    ∀ l ∈ manifestHeaderLines nowIso desc n, skipLine l = true := by
  intro l hl
  simp only [manifestHeaderLines, List.mem_cons, List.not_mem_nil, or_false] at hl
  rcases hl with rfl | rfl | rfl | rfl | rfl | rfl | rfl
  · exact skipLine_of_hash _ rfl
  · exact skipLine_of_hash _ (startsWithHash_append _ _ (by decide))
  · exact skipLine_of_hash _ (startsWithHash_append _ _ (by decide))
  · decide
  · decide
  · exact skipLine_of_hash _ rfl
  · decide

/-- Every manifest footer line is skipped by the reader. -/
theorem footer_lines_skipped (total_size : ℕ) (file_types : List (List Char × ℕ)) :
    ∀ l ∈ manifestFooterLines total_size file_types, skipLine l = true := by
  intro l hl
  simp only [manifestFooterLines, List.mem_cons, List.not_mem_nil, or_false] at hl
  rcases hl with rfl | rfl | rfl | rfl
  · decide
  · decide
  · refine skipLine_of_hash _ ?_
    rw [List.append_assoc]
    exact startsWithHash_append _ _ (by decide)
  · exact skipLine_of_hash _ (startsWithHash_append _ _ (by decide))

/-- Skipped lines are filtered out of the manifest read. -/
theorem filter_skip_all (ls : List (List Char))
    (h : ∀ l ∈ ls, skipLine l = true) :
    ls.filter (fun l => ! skipLine l) = [] := by
  rw [List.filter_eq_nil_iff]
  intro a ha
  rw [h a ha]
  simp

/-- The entry line of an on-disk file with a manifest-safe name is kept by
the reader and parses back to exactly that name. -/
theorem entryLine_parse (f : ManFile) (hd : f.onDisk = true)
    (hs : manifestSafeName f.name) :
    skipLine (entryLine f) = false ∧ parseEntryName (entryLine f) = f.name := by
  obtain ⟨hhash, hsplit, hstrip, -⟩ := hs
  have hline : entryLine f
      = f.name ++ (sepBar ++ ((toString f.size).data
          ++ (sepBar ++ (f.mtime ++ (sepBar ++ f.ext.map pyCharLower))))) := by
    simp [entryLine, hd]
  constructor
  · have h1 : startsWithHash (entryLine f) = false := by
      rw [hline]
      cases hn : f.name with
      | nil => rfl
      | cons c t =>
        rw [List.cons_append]
        show (c == '#') = false
        rw [hn] at hhash
        exact hhash
    have h2 : (pyStripL (entryLine f)).isEmpty = false := by
      have hmem : '|' ∈ entryLine f := by
        rw [hline]
        exact List.mem_append_right _ (List.mem_append_left _ (by simp [sepBar]))
      have hne := pyStripL_ne_nil (entryLine f) '|' hmem (by decide)
      rw [Bool.eq_false_iff]
      intro hh
      exact hne (List.isEmpty_iff.mp hh)
    unfold skipLine
    rw [h1, h2]
    rfl
  · unfold parseEntryName
    rw [hline, splitFirstOn_boundary f.name _ hsplit, hstrip]

/-- Reading back the manifest written for on-disk files with
manifest-safe names yields exactly their (sorted) names. -/
theorem manifestNames_create (nowIso desc : List Char) (files : List ManFile)
    (hdisk : ∀ f ∈ files, f.onDisk = true)
    (hname : ∀ f ∈ files, manifestSafeName f.name) :
    manifestNames (create_manifest nowIso desc files)
      = (sortManFiles files).map (fun f => f.name) := by
  have hsorted : ∀ f ∈ sortManFiles files, f.onDisk = true ∧ manifestSafeName f.name := by
    intro f hf
    have hmemf : f ∈ files := (List.perm_insertionSort _ files).mem_iff.mp hf
    exact ⟨hdisk f hmemf, hname f hmemf⟩
  unfold manifestNames create_manifest
  rw [List.filter_append, List.filter_append]
  rw [filter_skip_all _ (header_lines_skipped nowIso desc files.length)]
  rw [filter_skip_all _ (footer_lines_skipped _ _)]
  rw [List.filter_map]
  rw [List.filter_eq_self.mpr ?kept]
  case kept =>
    intro f hf
    show (! skipLine (entryLine f)) = true
    rw [(entryLine_parse f (hsorted f hf).1 (hsorted f hf).2).1]
    rfl
  rw [List.nil_append, List.append_nil, List.map_map]
  refine List.map_congr_left ?_
  intro f hf
  exact (entryLine_parse f (hsorted f hf).1 (hsorted f hf).2).2

/-- The claim C7 counterexample file: it exists on disk, but its name
starts with `#`. -/
def hashFile : ManFile :=
  { name := ['#', 'a'], size := 1, mtime := [], ext := [], onDisk := true }

/-- The first claim C7 witness file. -/
def imgFile1 : ManFile :=
  { name := "img_0001.jpg".data, size := 3, mtime := "2024-01-01T00:00:00".data,
    ext := ".JPG".data, onDisk := true }

/-- The second claim C7 witness file. -/
def imgFile2 : ManFile :=
  { name := "clip.mov".data, size := 4, mtime := "2024-01-02T00:00:00".data,
    ext := ".mov".data, onDisk := true }

end CalvinSync
